import Mathlib

/-!
Verification of the two-stage wind-turbine anomaly scanner
(`src/anomaly_scanner.py`) and the timestamp gap analyzer
(`src/data_checker_clean.py`) against their natural-language specification.

The embedding models a dataframe row as a record with a turbine id
(a natural number standing for the string id, so that pandas' total
order on ids is the order on ℕ), a timestamp (a natural number: an
instant on a discrete clock, in minutes), and a rational value
(`diff_pwr`); rational arithmetic models the exact content of the
float computations.  Pandas' `sort_values` on a key with no duplicate
keys is modelled by `List.insertionSort` with the corresponding total
preorder.
-/

/-- One input row of the scanner: `(TURBINE_ID, TTimeStamp, diff_pwr)`. -/
structure RawRecord where
  turbine : ℕ
  time : ℕ
  value : ℚ
deriving DecidableEq, Repr, Inhabited

/-- One output row of the scanner: `(TURBINE_ID, TTimeStamp, detection)` —
exactly the three columns the source selects at line 151. -/
structure DetRecord where
  turbine : ℕ
  time : ℕ
  detection : ℚ
deriving DecidableEq, Repr, Inhabited

/-- The `deviation_method` parameter of `scan_turbine_anomalies`
(`'std'` or `'mad'`). -/
inductive DevMethod where
  | std : DevMethod
  | mad : DevMethod
deriving DecidableEq, Repr

/-- The sort key of `df.sort_values([timestamp_col, turbine_col])`
(line 73 of the scanner). -/
def scanLE (a b : RawRecord) : Prop :=
  a.time < b.time ∨ (a.time = b.time ∧ a.turbine ≤ b.turbine)

instance : DecidableRel scanLE := fun a b => by
  unfold scanLE; infer_instance

instance : IsTotal RawRecord scanLE where
  total a b := by
    unfold scanLE; omega

instance : IsTrans RawRecord scanLE where
  trans a b c hab hbc := by
    unfold scanLE at *; omega

/-- The scanner's working table after the initial sort (line 73). -/
def sortedRows (rows : List RawRecord) : List RawRecord :=
  List.insertionSort scanLE rows

/-- `Series.mean()` of pandas on a list of values. -/
def listMean (l : List ℚ) : ℚ := l.sum / l.length

/-- `Series.std()` of pandas (sample variance, `ddof=1`), squared: the
source compares `z = |x - mean| / std` against the threshold, and the
embedding keeps the equivalent squared comparison to stay inside ℚ.
Only used on groups of length ≥ 2 (the `len(abs_values) > 1` branch). -/
def sampleVar (l : List ℚ) : ℚ :=
  (l.map (fun x => (x - listMean l) ^ 2)).sum / ((l.length : ℚ) - 1)

/-- `Series.median()` of pandas: middle element of the sorted values, or
the average of the two middle elements for an even count. -/
def listMedian (l : List ℚ) : ℚ :=
  let s := List.insertionSort (· ≤ ·) l
  if l.length % 2 = 1 then s.getD (l.length / 2) 0
  else (s.getD (l.length / 2 - 1) 0 + s.getD (l.length / 2) 0) / 2

/-- Lines 119-128 of the scanner: the `'std'` Stage-2 test.  The source
computes `z_score = abs((abs_value - mean) / std)` and passes when
`z_score > deviation_threshold`; since `std = √(sampleVar)`, for a
non-negative threshold this is exactly `(abs_value - mean)² > t² · var`,
and for a negative threshold it always holds (`z ≥ 0`).  When
`std == 0` the source instead passes exactly when `abs_value > mean`. -/
def passesDeviationStd (absValue : ℚ) (absValues : List ℚ) (t : ℚ) : Bool :=
  let meanVal := listMean absValues
  let varVal := sampleVar absValues
  if 0 < varVal then
    if t < 0 then true else decide (t ^ 2 * varVal < (absValue - meanVal) ^ 2)
  else decide (meanVal < absValue)

/-- Lines 106-117 of the scanner: the `'mad'` Stage-2 test.  `mad` is the
median absolute deviation of the group; when it is positive the source
passes when the modified z-score `|(abs_value - median)/(1.4826 · mad)|`
exceeds the threshold, and when it is zero it passes exactly when
`abs_value > median`. -/
def passesDeviationMad (absValue : ℚ) (absValues : List ℚ) (t : ℚ) : Bool :=
  let medianVal := listMedian absValues
  let mad := listMedian (absValues.map (fun x => |x - medianVal|))
  if 0 < mad then decide (t < |(absValue - medianVal) / (14826 / 10000 * mad)|)
  else decide (medianVal < absValue)

/-- Lines 103-136: `passes_deviation` for one record, given the absolute
values of its whole timestamp group.  A group with a single member
auto-passes (the source's Option A at line 134). -/
def passesDeviation (devT : ℚ) (m : DevMethod) (absValues : List ℚ)
    (absValue : ℚ) : Bool :=
  if 1 < absValues.length then
    match m with
    | .mad => passesDeviationMad absValue absValues devT
    | .std => passesDeviationStd absValue absValues devT
  else true

/-- Lines 92-148 for one record: Stage 1 (`abs_value <= abs_threshold`
fails the record with detection 0 and stops), then Stage 2, and the
combination `detection = value` iff both stages pass, else 0. -/
def detectValue (thr devT : ℚ) (m : DevMethod) (absValues : List ℚ)
    (value : ℚ) : ℚ :=
  if |value| ≤ thr then 0
  else if passesDeviation devT m absValues |value| then value else 0

/-- Line 86: the absolute values of all readings sharing one timestamp
(the group built by `df.groupby(timestamp_col)`). -/
def groupAbsValues (rows : List RawRecord) (t : ℕ) : List ℚ :=
  ((sortedRows rows).filter (fun r => r.time == t)).map (fun r => |r.value|)

/-- The detection table: iterating the groups of the sorted table in
order and each group's members in order is iterating the sorted table
row by row; every row gets the detection computed from its own value
and its timestamp group's absolute values. -/
def scanDetections (thr devT : ℚ) (m : DevMethod)
    (rows : List RawRecord) : List DetRecord :=
  (sortedRows rows).map (fun r =>
    { turbine := r.turbine, time := r.time
      detection := detectValue thr devT m (groupAbsValues rows r.time) r.value })

/-- The counters accumulated at lines 78-81 and 100, 139, 145. -/
structure ScanStats where
  totalRecords : ℕ
  absThresholdPass : ℕ
  deviationPass : ℕ
  bothCriteriaMet : ℕ
deriving DecidableEq, Repr

/-- The counter updates of the inner loop body for one record, with the
source's control flow: `continue` on Stage-1 failure, then
`abs_threshold_pass += 1`, then `if passes_deviation: deviation_pass += 1`
and, separately, `if passes_deviation: ... both_criteria_met += 1`. -/
def scanStep (thr devT : ℚ) (m : DevMethod) (absValues : List ℚ)
    (value : ℚ) (s : ScanStats) : ScanStats :=
  if |value| ≤ thr then s
  else
    let s1 := { s with absThresholdPass := s.absThresholdPass + 1 }
    let pd := passesDeviation devT m absValues |value|
    let s2 := if pd then { s1 with deviationPass := s1.deviationPass + 1 } else s1
    if pd then { s2 with bothCriteriaMet := s2.bothCriteriaMet + 1 } else s2

/-- The `anomaly_stats` counters of one full scan (lines 154-159). -/
def scanStats (thr devT : ℚ) (m : DevMethod) (rows : List RawRecord) : ScanStats :=
  (sortedRows rows).foldl
    (fun s r => scanStep thr devT m (groupAbsValues rows r.time) r.value s)
    { totalRecords := rows.length, absThresholdPass := 0
      deviationPass := 0, bothCriteriaMet := 0 }

/-- `scan_turbine_anomalies` with its optional `abs_threshold`.  The
parameter defaults to `None`; the first record processed evaluates
`abs_value <= abs_threshold` (line 93), which raises a `TypeError` when
the threshold is `None`, so the call fails on any non-empty table —
modelled as `none`.  On an empty table the group loop never runs and the
empty detection table and zero counters are returned. -/
def scan_turbine_anomalies (absThreshold : Option ℚ) (devT : ℚ) (m : DevMethod)
    (rows : List RawRecord) : Option (List DetRecord × ScanStats) :=
  match absThreshold with
  | none =>
    match sortedRows rows with
    | [] => some ([], { totalRecords := 0, absThresholdPass := 0
                        deviationPass := 0, bothCriteriaMet := 0 })
    | _ :: _ => none
  | some thr => some (scanDetections thr devT m rows, scanStats thr devT m rows)

/-- Reading a detection table back as an input table, with the
`detection` column as the value column (for the idempotence property). -/
def detToRaw (d : DetRecord) : RawRecord :=
  { turbine := d.turbine, time := d.time, value := d.detection }

theorem sortedRows_length (rows : List RawRecord) :
    (sortedRows rows).length = rows.length :=
  (List.perm_insertionSort scanLE rows).length_eq

theorem scanDetections_getD (thr devT : ℚ) (m : DevMethod) (rows : List RawRecord)
    (i : ℕ) (hi : i < (sortedRows rows).length) :
    (scanDetections thr devT m rows).getD i default =
      { turbine := ((sortedRows rows).getD i default).turbine
        time := ((sortedRows rows).getD i default).time
        detection := detectValue thr devT m
          (groupAbsValues rows ((sortedRows rows).getD i default).time)
          ((sortedRows rows).getD i default).value } := by
  have hi2 : i < (scanDetections thr devT m rows).length := by
    simpa [scanDetections] using hi
  rw [List.getD_eq_getElem _ _ hi2, List.getD_eq_getElem _ _ hi]
  simp only [scanDetections, List.getElem_map]

theorem detectValue_of_stage1_fail (thr devT : ℚ) (m : DevMethod)
    (absValues : List ℚ) (value : ℚ) (h : |value| ≤ thr) :
    detectValue thr devT m absValues value = 0 := by
  unfold detectValue
  rw [if_pos h]

/-- C1: a record whose absolute value is at most `abs_threshold` (the
boundary `|v| = abs_threshold` included) gets detection 0, and its
detection does not depend on the Stage-2 parameters or peer values —
Stage 2 is never evaluated for it. -/
theorem stage1_gate_strict (thr devT : ℚ) (m : DevMethod) (rows : List RawRecord)
    (i : ℕ) (hi : i < (sortedRows rows).length)
    (h : |((sortedRows rows).getD i default).value| ≤ thr) :
    ((scanDetections thr devT m rows).getD i default).detection = 0 ∧
    ∀ devT2 m2 absValues,
      detectValue thr devT2 m2 absValues ((sortedRows rows).getD i default).value = 0 := by
  constructor
  · rw [scanDetections_getD thr devT m rows i hi]
    exact detectValue_of_stage1_fail thr devT m _ _ h
  · intro devT2 m2 absValues
    exact detectValue_of_stage1_fail thr devT2 m2 _ _ h

theorem stage1_gate_strict_witness :
    ((scanDetections 100 2 .std [⟨0, 0, 100⟩]).getD 0 default).detection = 0 :=
  (stage1_gate_strict 100 2 .std [⟨0, 0, 100⟩] 0
    (by simp [sortedRows, List.insertionSort])
    (by norm_num [sortedRows, List.insertionSort])).1

/-- C2: a record that is alone in its timestamp group and exceeds the
absolute threshold auto-passes Stage 2, so its detection equals its
original signed value. -/
theorem singleton_group_autopass (thr devT : ℚ) (m : DevMethod) (rows : List RawRecord)
    (i : ℕ) (hi : i < (sortedRows rows).length)
    (hsingle : ((sortedRows rows).filter
      (fun s => s.time == ((sortedRows rows).getD i default).time)).length = 1)
    (hpass : thr < |((sortedRows rows).getD i default).value|) :
    ((scanDetections thr devT m rows).getD i default).detection =
      ((sortedRows rows).getD i default).value := by
  rw [scanDetections_getD thr devT m rows i hi]
  show detectValue _ _ _ _ _ = _
  have hlen : (groupAbsValues rows ((sortedRows rows).getD i default).time).length = 1 := by
    rw [groupAbsValues, List.length_map]
    exact hsingle
  have hdev : passesDeviation devT m
      (groupAbsValues rows ((sortedRows rows).getD i default).time)
      |((sortedRows rows).getD i default).value| = true := by
    unfold passesDeviation
    rw [hlen]
    simp
  unfold detectValue
  rw [if_neg (not_le.mpr hpass), if_pos hdev]

theorem singleton_group_autopass_witness :
    ((scanDetections 100 2 .std [⟨0, 0, 120⟩]).getD 0 default).detection = 120 :=
  singleton_group_autopass 100 2 .std [⟨0, 0, 120⟩] 0
    (by simp [sortedRows, List.insertionSort])
    (by simp [sortedRows, List.insertionSort])
    (by norm_num [sortedRows, List.insertionSort])

/-- C4: on any non-empty table, calling the scanner without an absolute
threshold (`None`, the default) fails during the Stage-1 comparison
instead of producing a detection table. -/
theorem missing_abs_threshold_fails (devT : ℚ) (m : DevMethod) (rows : List RawRecord)
    (h : rows ≠ []) :
    scan_turbine_anomalies none devT m rows = none := by
  cases hs : sortedRows rows with
  | nil =>
    exact absurd (List.length_eq_zero.mp (by rw [← sortedRows_length rows, hs]; rfl)) h
  | cons a t =>
    simp [scan_turbine_anomalies, hs]

theorem missing_abs_threshold_fails_witness :
    scan_turbine_anomalies none 2 .std [⟨0, 0, 1⟩] = none :=
  missing_abs_threshold_fails 2 .std [⟨0, 0, 1⟩] (by simp)

theorem scanStep_dev_eq_both (thr devT : ℚ) (m : DevMethod) (absValues : List ℚ)
    (value : ℚ) (s : ScanStats) (h : s.deviationPass = s.bothCriteriaMet) :
    (scanStep thr devT m absValues value s).deviationPass =
      (scanStep thr devT m absValues value s).bothCriteriaMet := by
  unfold scanStep
  by_cases h1 : |value| ≤ thr
  · simp [h1, h]
  · by_cases h2 : passesDeviation devT m absValues |value|
    · simp [h1, h2, h]
    · simp [h1, h2, h]

theorem foldl_scanStep_dev_eq_both (thr devT : ℚ) (m : DevMethod)
    (l : List RawRecord) (g : RawRecord → List ℚ) (s : ScanStats)
    (h : s.deviationPass = s.bothCriteriaMet) :
    (l.foldl (fun s r => scanStep thr devT m (g r) r.value s) s).deviationPass =
      (l.foldl (fun s r => scanStep thr devT m (g r) r.value s) s).bothCriteriaMet := by
  induction l generalizing s with
  | nil => exact h
  | cons a t ih =>
    exact ih _ (scanStep_dev_eq_both thr devT m (g a) a.value s h)

/-- C10: the `deviation_pass` and `both_criteria_met` counters of the
scan statistics are always equal — both are incremented exactly for the
Stage-1 survivors that pass Stage 2. -/
theorem deviation_pass_eq_both_criteria (thr devT : ℚ) (m : DevMethod)
    (rows : List RawRecord) :
    (scanStats thr devT m rows).deviationPass =
      (scanStats thr devT m rows).bothCriteriaMet := by
  unfold scanStats
  exact foldl_scanStep_dev_eq_both thr devT m (sortedRows rows) _ _ rfl

theorem listMean_const (l : List ℚ) (c : ℚ) (hne : l ≠ []) (h : ∀ x ∈ l, x = c) :
    listMean l = c := by
  have hlen : (l.length : ℚ) ≠ 0 := by
    exact_mod_cast Nat.pos_iff_ne_zero.mp (List.length_pos.mpr hne)
  unfold listMean
  rw [List.sum_eq_card_nsmul l c h, nsmul_eq_mul, mul_div_cancel_left₀ _ hlen]

theorem sampleVar_const (l : List ℚ) (c : ℚ) (hne : l ≠ []) (h : ∀ x ∈ l, x = c) :
    sampleVar l = 0 := by
  unfold sampleVar
  rw [List.sum_eq_zero, zero_div]
  intro x hx
  obtain ⟨y, hy, rfl⟩ := List.mem_map.mp hx
  rw [h y hy, listMean_const l c hne h]
  ring

theorem listMedian_const (l : List ℚ) (c : ℚ) (hne : l ≠ []) (h : ∀ x ∈ l, x = c) :
    listMedian l = c := by
  have hlen0 : 0 < l.length := List.length_pos.mpr hne
  have hslen : (List.insertionSort (· ≤ ·) l).length = l.length :=
    (List.perm_insertionSort _ l).length_eq
  have hget : ∀ i, i < l.length → (List.insertionSort (· ≤ ·) l).getD i 0 = c := by
    intro i hi
    rw [List.getD_eq_getElem _ _ (by omega : i < (List.insertionSort (· ≤ ·) l).length)]
    exact h _ ((List.perm_insertionSort _ l).mem_iff.mp (List.getElem_mem _))
  unfold listMedian
  by_cases hodd : l.length % 2 = 1
  · rw [if_pos hodd, hget _ (Nat.div_lt_self hlen0 one_lt_two)]
  · rw [if_neg hodd, hget _ (by omega), hget _ (by omega)]
    ring

theorem passesDeviation_const (devT : ℚ) (m : DevMethod) (l : List ℚ) (c : ℚ)
    (hlen : 2 ≤ l.length) (h : ∀ x ∈ l, x = c) :
    passesDeviation devT m l c = false := by
  have hne : l ≠ [] := by
    intro he
    rw [he] at hlen
    simp at hlen
  unfold passesDeviation
  rw [if_pos (by omega : 1 < l.length)]
  cases m with
  | mad =>
    show passesDeviationMad c l devT = false
    have hmad : listMedian (l.map (fun x => |x - c|)) = 0 := by
      apply listMedian_const
      · simpa using hne
      · intro x hx
        obtain ⟨y, hy, rfl⟩ := List.mem_map.mp hx
        rw [h y hy]
        simp
    simp only [passesDeviationMad, listMedian_const l c hne h, hmad]
    simp
  | std =>
    show passesDeviationStd c l devT = false
    simp only [passesDeviationStd, listMean_const l c hne h, sampleVar_const l c hne h]
    simp

/-- C3: in a timestamp group of at least two readings whose absolute
values are all equal, the record passes Stage 2 under neither the `std`
nor the `mad` method, so its detection is 0. -/
theorem zero_variance_group_no_anomaly (thr devT : ℚ) (m : DevMethod)
    (rows : List RawRecord) (i : ℕ) (hi : i < (sortedRows rows).length)
    (hsize : 2 ≤ (groupAbsValues rows ((sortedRows rows).getD i default).time).length)
    (hconst : ∀ x ∈ groupAbsValues rows ((sortedRows rows).getD i default).time,
      x = |((sortedRows rows).getD i default).value|) :
    ((scanDetections thr devT m rows).getD i default).detection = 0 := by
  rw [scanDetections_getD thr devT m rows i hi]
  show detectValue _ _ _ _ _ = _
  by_cases h1 : |((sortedRows rows).getD i default).value| ≤ thr
  · exact detectValue_of_stage1_fail _ _ _ _ _ h1
  · unfold detectValue
    rw [if_neg h1, passesDeviation_const devT m _ _ hsize hconst]
    simp

theorem zero_variance_group_no_anomaly_witness :
    ((scanDetections 100 2 .mad [⟨0, 0, 150⟩, ⟨1, 0, -150⟩]).getD 0 default).detection = 0 :=
  zero_variance_group_no_anomaly 100 2 .mad [⟨0, 0, 150⟩, ⟨1, 0, -150⟩] 0
    (by simp [sortedRows, List.insertionSort, List.orderedInsert, scanLE])
    (by norm_num [groupAbsValues, sortedRows, List.insertionSort, List.orderedInsert, scanLE])
    (by norm_num [groupAbsValues, sortedRows, List.insertionSort, List.orderedInsert, scanLE])

theorem sortedRows_map_detToRaw (thr devT : ℚ) (m : DevMethod) (rows : List RawRecord) :
    sortedRows ((scanDetections thr devT m rows).map detToRaw) =
      (scanDetections thr devT m rows).map detToRaw := by
  apply List.Sorted.insertionSort_eq
  rw [scanDetections, List.map_map]
  exact (List.sorted_insertionSort scanLE rows).map _ (fun a b hab => hab)

theorem detectValue_cases (thr devT : ℚ) (m : DevMethod) (absValues : List ℚ)
    (value : ℚ) :
    detectValue thr devT m absValues value = 0 ∨
      detectValue thr devT m absValues value = value := by
  unfold detectValue
  by_cases h1 : |value| ≤ thr
  · left; rw [if_pos h1]
  · by_cases h2 : passesDeviation devT m absValues |value|
    · right; rw [if_neg h1, if_pos h2]
    · left; rw [if_neg h1, if_neg h2]

/-- The second scan of the idempotence property: the detection table is
read back with `detection` as the value column and scanned again with
the same parameters. -/
def rescanDetections (thr devT : ℚ) (m : DevMethod) (rows : List RawRecord) :
    List DetRecord :=
  scanDetections thr devT m ((scanDetections thr devT m rows).map detToRaw)

/-- The table of the idempotence counterexample: four turbines sharing one
timestamp with `diff_pwr` values 100, 100, 330, 110. -/
def idempotenceRows : List RawRecord :=
  [⟨0, 0, 100⟩, ⟨1, 0, 100⟩, ⟨2, 0, 330⟩, ⟨3, 0, 110⟩]

/-- C5, counterexample: with `abs_threshold = 100`, `deviation_threshold = 1/5`
and the `'std'` method, the first scan flags turbines 2 and 3 (detections 330
and 110), but the second scan of the detection column zeroes out the two
Stage-1 failures, which moves the group mean and deviation enough that the
record 110 no longer passes Stage 2: the second detection table differs. -/
theorem rescan_not_idempotent :
    rescanDetections 100 (1/5) .std idempotenceRows ≠
      scanDetections 100 (1/5) .std idempotenceRows := by
  norm_num [rescanDetections, idempotenceRows, scanDetections, detToRaw, sortedRows,
    List.insertionSort, List.orderedInsert, scanLE, groupAbsValues, detectValue,
    passesDeviation, passesDeviationStd, listMean, sampleVar]

/-- C5, amended: rescanning the scanner's own detection column with the
same parameters (and a non-negative threshold) yields a table with the
same rows in the same order in which every detection is either the first
run's detection or 0, and first-run zeros stay zero; full equality of
the two tables does not hold in general (see `rescan_not_idempotent`). -/
theorem rescan_pointwise (thr devT : ℚ) (m : DevMethod) (rows : List RawRecord)
    (hthr : 0 ≤ thr) :
    (rescanDetections thr devT m rows).length = (scanDetections thr devT m rows).length ∧
    ∀ i, i < (scanDetections thr devT m rows).length →
      ((rescanDetections thr devT m rows).getD i default).turbine =
        ((scanDetections thr devT m rows).getD i default).turbine ∧
      ((rescanDetections thr devT m rows).getD i default).time =
        ((scanDetections thr devT m rows).getD i default).time ∧
      (((rescanDetections thr devT m rows).getD i default).detection =
          ((scanDetections thr devT m rows).getD i default).detection ∨
        ((rescanDetections thr devT m rows).getD i default).detection = 0) ∧
      (((scanDetections thr devT m rows).getD i default).detection = 0 →
        ((rescanDetections thr devT m rows).getD i default).detection = 0) := by
  have hsor := sortedRows_map_detToRaw thr devT m rows
  have hre : rescanDetections thr devT m rows =
      (scanDetections thr devT m rows).map (fun d =>
        { turbine := d.turbine, time := d.time
          detection := detectValue thr devT m
            (groupAbsValues ((scanDetections thr devT m rows).map detToRaw) d.time)
            d.detection }) := by
    show scanDetections thr devT m ((scanDetections thr devT m rows).map detToRaw) = _
    conv_lhs => rw [scanDetections]
    rw [hsor, List.map_map]
    rfl
  constructor
  · rw [hre, List.length_map]
  · intro i hi
    have hget : (rescanDetections thr devT m rows).getD i default =
        { turbine := ((scanDetections thr devT m rows).getD i default).turbine
          time := ((scanDetections thr devT m rows).getD i default).time
          detection := detectValue thr devT m
            (groupAbsValues ((scanDetections thr devT m rows).map detToRaw)
              ((scanDetections thr devT m rows).getD i default).time)
            ((scanDetections thr devT m rows).getD i default).detection } := by
      rw [hre]
      rw [List.getD_eq_getElem _ _ (by rw [List.length_map]; exact hi),
        List.getD_eq_getElem _ _ hi]
      simp only [List.getElem_map]
    refine ⟨by rw [hget], by rw [hget], ?_, ?_⟩
    · rw [hget]
      rcases detectValue_cases thr devT m
          (groupAbsValues ((scanDetections thr devT m rows).map detToRaw)
            ((scanDetections thr devT m rows).getD i default).time)
          ((scanDetections thr devT m rows).getD i default).detection with h | h
      · right; exact h
      · left; exact h
    · intro h0
      rw [hget, h0]
      exact detectValue_of_stage1_fail thr devT m _ _ (by simpa using hthr)

theorem rescan_pointwise_witness :
    (rescanDetections 100 2 .std [⟨0, 0, 120⟩]).length =
      (scanDetections 100 2 .std [⟨0, 0, 120⟩]).length :=
  (rescan_pointwise 100 2 .std [⟨0, 0, 120⟩] (by norm_num)).1

/-- The documented order of the detection output table:
`(timestamp, turbine_id)`. -/
def detLE (a b : DetRecord) : Prop :=
  a.time < b.time ∨ (a.time = b.time ∧ a.turbine ≤ b.turbine)

/-- C8: for a table without duplicate `(turbine, timestamp)` keys, the
detection table has one row per input record (its `(turbine, timestamp)`
multiset is the input's) and is sorted by `(timestamp, turbine_id)`; the
row type `DetRecord` carries exactly the three output columns. -/
theorem detection_table_shape (thr devT : ℚ) (m : DevMethod) (rows : List RawRecord)
    (_hkeys : (rows.map (fun r => (r.turbine, r.time))).Nodup) :
    (scanDetections thr devT m rows).length = rows.length ∧
    List.Sorted detLE (scanDetections thr devT m rows) ∧
    ((scanDetections thr devT m rows).map (fun d => (d.turbine, d.time))).Perm
      (rows.map (fun r => (r.turbine, r.time))) := by
  refine ⟨?_, ?_, ?_⟩
  · rw [scanDetections, List.length_map, sortedRows_length]
  · rw [scanDetections]
    exact (List.sorted_insertionSort scanLE rows).map _ (fun a b hab => hab)
  · rw [scanDetections, List.map_map]
    exact (List.perm_insertionSort scanLE rows).map _

theorem detection_table_shape_witness :
    (scanDetections 100 2 .std [⟨0, 0, 120⟩]).length = 1 := by
  have h := (detection_table_shape 100 2 .std [⟨0, 0, 120⟩] (by simp)).1
  simpa using h

/-- The scenario table of the spec's §8 `std` scenario: turbines A, B, C
(ids 0, 1, 2) share one timestamp with `diff_pwr` values 150, 5, 8. -/
def stdScenarioRows : List RawRecord := [⟨0, 0, 150⟩, ⟨1, 0, 5⟩, ⟨2, 0, 8⟩]

/-- C9: in the scenario with values 150, 5, 8 at one timestamp and
`abs_threshold = 100`, `deviation_threshold = 2`, method `std`: exactly
one record (the 150) passes Stage 1, its z-score does not exceed 2, and
all three detections are 0. -/
theorem std_scenario_no_anomaly :
    (scanStats 100 2 .std stdScenarioRows).absThresholdPass = 1 ∧
    passesDeviationStd 150 (groupAbsValues stdScenarioRows 0) 2 = false ∧
    scanDetections 100 2 .std stdScenarioRows =
      [⟨0, 0, 0⟩, ⟨1, 0, 0⟩, ⟨2, 0, 0⟩] := by
  refine ⟨?_, ?_, ?_⟩ <;>
    norm_num [scanStats, scanStep, scanDetections, detectValue, sortedRows,
      List.insertionSort, List.orderedInsert, scanLE, groupAbsValues,
      passesDeviation, passesDeviationStd, listMean, sampleVar, stdScenarioRows]

/-- The sort key of `sort_values([turbine_col, timestamp_col])` used by
the gap-analysis functions of `data_checker_clean.py`. -/
def turbineLE (a b : RawRecord) : Prop :=
  a.turbine < b.turbine ∨ (a.turbine = b.turbine ∧ a.time ≤ b.time)

instance : DecidableRel turbineLE := fun a b => by
  unfold turbineLE; infer_instance

instance : IsTotal RawRecord turbineLE where
  total a b := by
    unfold turbineLE; omega

instance : IsTrans RawRecord turbineLE where
  trans a b c hab hbc := by
    unfold turbineLE at *; omega

/-- The per-turbine `sort_values(timestamp_col)`. -/
def timeLE (a b : RawRecord) : Prop := a.time ≤ b.time

instance : DecidableRel timeLE := fun a b => by
  unfold timeLE; infer_instance

instance : IsTotal RawRecord timeLE where
  total a b := by
    unfold timeLE; omega

instance : IsTrans RawRecord timeLE where
  trans a b c hab hbc := by
    unfold timeLE at *; omega

def sortByTurbineTime (rows : List RawRecord) : List RawRecord :=
  List.insertionSort turbineLE rows

/-- `sorted(df[turbine_col].unique())` (line 48 and alike): the distinct
turbine ids in ascending order. -/
def uniqueTurbines (rows : List RawRecord) : List ℕ :=
  List.insertionSort (· ≤ ·) (rows.map (fun r => r.turbine)).dedup

/-- `df[df[turbine_col] == turbine_id]`. -/
def turbineData (rows : List RawRecord) (t : ℕ) : List RawRecord :=
  rows.filter (fun r => r.turbine == t)

/-- The observed timestamp column of one turbine. -/
def turbineTimes (rows : List RawRecord) (t : ℕ) : List ℕ :=
  (turbineData rows t).map (fun r => r.time)

/-- `drop_duplicates(subset=[timestamp_col], keep='first')` (line 64, with
the default `keep`): keep the first row of every timestamp value,
preserving row order; `seen` carries the timestamps already kept. -/
def dropDuplicateTimes (seen : List ℕ) : List RawRecord → List RawRecord
  | [] => []
  | r :: rest =>
    if r.time ∈ seen then dropDuplicateTimes seen rest
    else r :: dropDuplicateTimes (r.time :: seen) rest

/-- One row of the duplicate summary (lines 57-61). -/
structure DuplicateInfo where
  turbine : ℕ
  duplicateRows : ℕ
  uniqueDuplicateTimestamps : ℕ
deriving DecidableEq, Repr, Inhabited

/-- `turbine_data.duplicated(subset=[timestamp_col], keep=False)` (line 52):
the rows whose timestamp occurs more than once in the turbine's data. -/
def duplicatedRows (l : List RawRecord) : List RawRecord :=
  l.filter (fun r => decide (1 < (l.filter (fun s => s.time == r.time)).length))

/-- `remove_duplicate_timestamps` (lines 18-76, with the default
`keep='first'`): per turbine, count the duplicated rows and their distinct
timestamps, drop all but the first row of each timestamp, then concatenate
and sort by `(turbine, timestamp)`.  The `None` summary of the
no-duplicates case is modelled by the empty list. -/
def remove_duplicate_timestamps (rows : List RawRecord) :
    List RawRecord × List DuplicateInfo :=
  (sortByTurbineTime ((uniqueTurbines rows).flatMap
      (fun t => dropDuplicateTimes [] (turbineData rows t))),
    (uniqueTurbines rows).filterMap (fun t =>
      let dup := duplicatedRows (turbineData rows t)
      if 0 < dup.length then
        some { turbine := t, duplicateRows := dup.length
               uniqueDuplicateTimestamps := (dup.map (fun r => r.time)).dedup.length }
      else none))

/-- `pd.date_range(start, end, freq)` on the discrete clock: the regular
grid `start, start + f, …` up to `end` inclusive (the frequency is a
positive number of clock ticks). -/
def dateRange (start stop f : ℕ) : List ℕ :=
  if f = 0 then []
  else (List.range ((stop - start) / f + 1)).map (fun i => start + i * f)

/-- `Series.min()` on the nonempty timestamp column of one turbine. -/
def listMinD (l : List ℕ) : ℕ :=
  match l with
  | [] => 0
  | h :: t => t.foldl min h

/-- `Series.max()` on the nonempty timestamp column of one turbine. -/
def listMaxD (l : List ℕ) : ℕ :=
  match l with
  | [] => 0
  | h :: t => t.foldl max h

/-- Lines 104-110 of `find_timestamp_gaps`: the expected grid over the
turbine's own span, diffed against the observed timestamps.  The filter
of the ascending grid is already ascending, which is what the source's
`sorted(...)` produces. -/
def missingTimestamps (rows : List RawRecord) (f : ℕ) (t : ℕ) : List ℕ :=
  (dateRange (listMinD (turbineTimes rows t)) (listMaxD (turbineTimes rows t)) f).filter
    (fun ts => decide (ts ∉ turbineTimes rows t))

/-- One reported gap (lines 127-133). -/
structure GapRecord where
  turbine : ℕ
  gapStart : ℕ
  gapEnd : ℕ
  missingRecords : ℕ
  duration : ℕ
deriving DecidableEq, Repr, Inhabited

/-- Lines 113-147: consolidate the sorted missing timestamps into runs of
consecutive timestamps (each exactly one interval after the previous one);
a run is recorded only when its length reaches `min_gap_size`, and its
`duration` is `gap_end - gap_start`. -/
def consolidateGaps (f minGap t : ℕ) :
    List ℕ → ℕ → ℕ → ℕ → List GapRecord
  | [], gapStart, gapEnd, gapCount =>
    if minGap ≤ gapCount then
      [{ turbine := t, gapStart := gapStart, gapEnd := gapEnd
         missingRecords := gapCount, duration := gapEnd - gapStart }]
    else []
  | m :: rest, gapStart, gapEnd, gapCount =>
    if m = gapEnd + f then consolidateGaps f minGap t rest gapStart m (gapCount + 1)
    else
      (if minGap ≤ gapCount then
        [{ turbine := t, gapStart := gapStart, gapEnd := gapEnd
           missingRecords := gapCount, duration := gapEnd - gapStart }]
      else []) ++ consolidateGaps f minGap t rest m m 1

/-- `find_timestamp_gaps` (lines 79-160): per turbine in ascending id
order, consolidate that turbine's missing timestamps; a turbine with no
missing timestamps contributes nothing. -/
def find_timestamp_gaps (rows : List RawRecord) (f minGap : ℕ) : List GapRecord :=
  (uniqueTurbines rows).flatMap (fun t =>
    match missingTimestamps rows f t with
    | [] => []
    | m :: rest => consolidateGaps f minGap t rest m m 1)

/-- One row of the missing-timestamp summary (lines 225-233; the derived
display percentage of line 232 is presentational and not modelled). -/
structure MissingSummaryRecord where
  turbine : ℕ
  startTime : ℕ
  endTime : ℕ
  expectedRecords : ℕ
  actualRecords : ℕ
  missingRecords : ℕ
deriving DecidableEq, Repr, Inhabited

/-- `detect_missing_timestamps` (lines 163-300) with `fill_missing=False`:
the rows come back grouped per turbine (each turbine block re-sorted by
time) and finally sorted by `(turbine, timestamp)`; the summary counts
expected, actual (`len(set(...))`: distinct observed) and missing
timestamps over each turbine's own span; the details are the per-turbine
missing lists.  The source's initial `(turbine, timestamp)` sort only
fixes row order and changes no per-turbine span, set or count, so the
summary and details are computed from the rows as given. -/
def detect_missing_timestamps (rows : List RawRecord) (f : ℕ) :
    List RawRecord × List MissingSummaryRecord × List (ℕ × List ℕ) :=
  (sortByTurbineTime ((uniqueTurbines rows).flatMap (fun t =>
      List.insertionSort timeLE (turbineData (sortByTurbineTime rows) t))),
    (uniqueTurbines rows).map (fun t =>
      { turbine := t
        startTime := listMinD (turbineTimes rows t)
        endTime := listMaxD (turbineTimes rows t)
        expectedRecords := (dateRange (listMinD (turbineTimes rows t))
          (listMaxD (turbineTimes rows t)) f).length
        actualRecords := (turbineTimes rows t).dedup.length
        missingRecords := (missingTimestamps rows f t).length }),
    (uniqueTurbines rows).map (fun t => (t, missingTimestamps rows f t)))

theorem consolidateGaps_spec (f minGap t : ℕ) (l : List ℕ)
    (gapStart gapEnd gapCount : ℕ) (hpos : 1 ≤ gapCount)
    (hinv : gapEnd = gapStart + (gapCount - 1) * f) :
    ∀ g ∈ consolidateGaps f minGap t l gapStart gapEnd gapCount,
      minGap ≤ g.missingRecords ∧
      g.gapEnd = g.gapStart + (g.missingRecords - 1) * f ∧
      g.duration = g.gapEnd - g.gapStart := by
  induction l generalizing gapStart gapEnd gapCount with
  | nil =>
    intro g hg
    rw [consolidateGaps] at hg
    by_cases hmin : minGap ≤ gapCount
    · rw [if_pos hmin, List.mem_singleton] at hg
      subst hg
      exact ⟨hmin, hinv, rfl⟩
    · rw [if_neg hmin] at hg
      exact absurd hg (List.not_mem_nil g)
  | cons m rest ih =>
    intro g hg
    rw [consolidateGaps] at hg
    by_cases hnext : m = gapEnd + f
    · rw [if_pos hnext] at hg
      refine ih gapStart m (gapCount + 1) (by omega) ?_ g hg
      have h1 : (gapCount + 1 - 1) * f = (gapCount - 1) * f + f := by
        have h2 : gapCount + 1 - 1 = gapCount - 1 + 1 := by omega
        rw [h2, add_mul, one_mul]
      rw [hnext, hinv, h1]
      ring
    · rw [if_neg hnext, List.mem_append] at hg
      rcases hg with hg | hg
      · by_cases hmin : minGap ≤ gapCount
        · rw [if_pos hmin, List.mem_singleton] at hg
          subst hg
          exact ⟨hmin, hinv, rfl⟩
        · rw [if_neg hmin] at hg
          exact absurd hg (List.not_mem_nil g)
      · exact ih m m 1 le_rfl (by simp) g hg

/-- The scenario table: turbine E (id 0) sampled every 10 minutes with
08:00 and 08:30 present (480 and 510 on a minute clock) and 08:10, 08:20
missing. -/
def gapScenarioRows : List RawRecord := [⟨0, 480, 0⟩, ⟨0, 510, 0⟩]

/-- C7: every reported gap is a run of consecutive missing timestamps —
its length is at least `min_gap_size`, its end is its start plus
`(length - 1)` intervals, and its duration is `gap_end - gap_start`;
and the 10-minute scenario with 08:10 and 08:20 missing yields exactly
one gap record `(gap_start 490, gap_end 500, missing 2, duration 10)`. -/
theorem gap_consolidation :
    (∀ rows f minGap g, g ∈ find_timestamp_gaps rows f minGap →
      minGap ≤ g.missingRecords ∧
      g.gapEnd = g.gapStart + (g.missingRecords - 1) * f ∧
      g.duration = g.gapEnd - g.gapStart) ∧
    find_timestamp_gaps gapScenarioRows 10 2 =
      [{ turbine := 0, gapStart := 490, gapEnd := 500
         missingRecords := 2, duration := 10 }] := by
  constructor
  · intro rows f minGap g hg
    rw [find_timestamp_gaps, List.mem_flatMap] at hg
    obtain ⟨t, _ht, hgt⟩ := hg
    rcases hmiss : missingTimestamps rows f t with _ | ⟨m, rest⟩
    · rw [hmiss] at hgt
      exact absurd hgt (List.not_mem_nil g)
    · rw [hmiss] at hgt
      exact consolidateGaps_spec f minGap t rest m m 1 le_rfl (by simp) g hgt
  · decide

theorem gap_consolidation_witness :
    2 ≤ ((find_timestamp_gaps gapScenarioRows 10 2).getD 0 default).missingRecords :=
  (gap_consolidation.1 gapScenarioRows 10 2 _ (by decide)).1

theorem flatMap_congr_mem {α β : Type} (l : List α) (f g : α → List β)
    (h : ∀ a ∈ l, f a = g a) : l.flatMap f = l.flatMap g := by
  induction l with
  | nil => rfl
  | cons a t ih =>
    rw [List.flatMap_cons, List.flatMap_cons, h a (List.mem_cons_self a t),
      ih (fun b hb => h b (List.mem_cons_of_mem a hb))]

theorem flatMap_perm_of_forall_perm {α β : Type} (l : List α) (f g : α → List β)
    (h : ∀ a ∈ l, (f a).Perm (g a)) : (l.flatMap f).Perm (l.flatMap g) := by
  induction l with
  | nil => exact List.Perm.refl _
  | cons a t ih =>
    rw [List.flatMap_cons, List.flatMap_cons]
    exact (h a (List.mem_cons_self a t)).append
      (ih (fun b hb => h b (List.mem_cons_of_mem a hb)))

theorem flatMap_turbineData_perm (keys : List ℕ) (rows : List RawRecord)
    (hnodup : keys.Nodup) (hmem : ∀ r ∈ rows, r.turbine ∈ keys) :
    (keys.flatMap (fun t => turbineData rows t)).Perm rows := by
  induction keys generalizing rows with
  | nil =>
    have hnil : rows = [] :=
      List.eq_nil_iff_forall_not_mem.mpr (fun r hr => by simpa using hmem r hr)
    simp [hnil]
  | cons k ks ih =>
    have hk : k ∉ ks := (List.nodup_cons.mp hnodup).1
    have heq : ks.flatMap (fun t => turbineData rows t) =
        ks.flatMap (fun t => turbineData (rows.filter (fun r => !(r.turbine == k))) t) := by
      apply flatMap_congr_mem
      intro a ha
      have hak : a ≠ k := fun h => hk (h ▸ ha)
      unfold turbineData
      rw [List.filter_filter]
      apply List.filter_congr
      intro r _hr
      by_cases h : r.turbine = a
      · simp [h, hak]
      · simp [h]
    rw [List.flatMap_cons, heq]
    have hsub : ∀ r ∈ rows.filter (fun r => !(r.turbine == k)), r.turbine ∈ ks := by
      intro r hr
      have h1 := List.of_mem_filter hr
      have h2 : r.turbine ≠ k := by simpa using h1
      have h3 := hmem r (List.mem_of_mem_filter hr)
      exact (List.mem_cons.mp h3).resolve_left h2
    refine List.Perm.trans
      (List.Perm.append_left _ (ih _ (List.nodup_cons.mp hnodup).2 hsub)) ?_
    exact List.filter_append_perm _ rows

theorem dropDuplicateTimes_of_nodup (l : List RawRecord) (seen : List ℕ)
    (hnodup : (l.map (fun r => r.time)).Nodup)
    (hseen : ∀ r ∈ l, r.time ∉ seen) :
    dropDuplicateTimes seen l = l := by
  induction l generalizing seen with
  | nil => rfl
  | cons r rest ih =>
    rw [dropDuplicateTimes, if_neg (hseen r (List.mem_cons_self r rest))]
    rw [List.map_cons, List.nodup_cons] at hnodup
    have hmap := hnodup
    congr 1
    apply ih _ hmap.2
    intro s hs
    rw [List.mem_cons]
    push_neg
    refine ⟨?_, hseen s (List.mem_cons_of_mem r hs)⟩
    intro hst
    exact hmap.1 (hst ▸ List.mem_map_of_mem (fun r => r.time) hs)

theorem duplicatedRows_eq_nil (l : List RawRecord)
    (hnodup : (l.map (fun r => r.time)).Nodup) :
    duplicatedRows l = [] := by
  rw [duplicatedRows, List.filter_eq_nil_iff]
  intro r hr
  simp only [decide_eq_true_eq, not_lt]
  have h1 : (l.filter (fun s => s.time == r.time)).length =
      List.count r.time (l.map (fun s => s.time)) := by
    rw [List.count, List.countP_map, ← List.countP_eq_length_filter]
    rfl
  rw [h1]
  exact List.nodup_iff_count_le_one.mp hnodup r.time

theorem nodup_uniqueTurbines (rows : List RawRecord) : (uniqueTurbines rows).Nodup :=
  ((List.perm_insertionSort _ _).nodup_iff).mpr (List.nodup_dedup _)

theorem mem_uniqueTurbines {rows : List RawRecord} {r : RawRecord} (hr : r ∈ rows) :
    r.turbine ∈ uniqueTurbines rows := by
  unfold uniqueTurbines
  rw [(List.perm_insertionSort _ _).mem_iff, List.mem_dedup]
  exact List.mem_map_of_mem _ hr

theorem missingTimestamps_eq_nil (rows : List RawRecord) (f t : ℕ)
    (hgrid : ∀ ts ∈ dateRange (listMinD (turbineTimes rows t))
      (listMaxD (turbineTimes rows t)) f, ts ∈ turbineTimes rows t) :
    missingTimestamps rows f t = [] := by
  rw [missingTimestamps, List.filter_eq_nil_iff]
  intro ts hts
  simp [hgrid ts hts]

/-- C6: on a table with no duplicate timestamps per turbine and no
missing timestamps on each turbine's own grid, duplicate removal returns
the rows unchanged up to sort order with an empty duplicate summary, the
gap table is empty, and missing-timestamp detection returns the rows
unchanged up to sort order with all missing counts zero. -/
theorem gap_analyzer_roundtrip (rows : List RawRecord) (f minGap : ℕ)
    (hnodup : ∀ t ∈ uniqueTurbines rows, (turbineTimes rows t).Nodup)
    (hgrid : ∀ t ∈ uniqueTurbines rows,
      ∀ ts ∈ dateRange (listMinD (turbineTimes rows t))
        (listMaxD (turbineTimes rows t)) f, ts ∈ turbineTimes rows t) :
    (remove_duplicate_timestamps rows).1.Perm rows ∧
    (remove_duplicate_timestamps rows).2 = [] ∧
    find_timestamp_gaps rows f minGap = [] ∧
    (detect_missing_timestamps rows f).1.Perm rows ∧
    (∀ e ∈ (detect_missing_timestamps rows f).2.1, e.missingRecords = 0) ∧
    (∀ p ∈ (detect_missing_timestamps rows f).2.2, p.2 = []) := by
  refine ⟨?_, ?_, ?_, ?_, ?_, ?_⟩
  · show (sortByTurbineTime _).Perm rows
    refine (List.perm_insertionSort _ _).trans ?_
    have heq : (uniqueTurbines rows).flatMap
        (fun t => dropDuplicateTimes [] (turbineData rows t)) =
        (uniqueTurbines rows).flatMap (fun t => turbineData rows t) := by
      apply flatMap_congr_mem
      intro t ht
      exact dropDuplicateTimes_of_nodup _ [] (hnodup t ht) (fun r _ => List.not_mem_nil _)
    rw [heq]
    exact flatMap_turbineData_perm _ rows (nodup_uniqueTurbines rows)
      (fun r hr => mem_uniqueTurbines hr)
  · show List.filterMap _ _ = []
    rw [List.filterMap_eq_nil_iff]
    intro t ht
    simp only [duplicatedRows_eq_nil (turbineData rows t) (hnodup t ht)]
    rfl
  · rw [find_timestamp_gaps]
    have heq : (uniqueTurbines rows).flatMap (fun t =>
        match missingTimestamps rows f t with
        | [] => ([] : List GapRecord)
        | m :: rest => consolidateGaps f minGap t rest m m 1) =
        (uniqueTurbines rows).flatMap (fun _ => ([] : List GapRecord)) := by
      apply flatMap_congr_mem
      intro t ht
      rw [missingTimestamps_eq_nil rows f t (hgrid t ht)]
    rw [heq]
    simp
  · show (sortByTurbineTime _).Perm rows
    refine (List.perm_insertionSort _ _).trans ?_
    have hstep1 : ((uniqueTurbines rows).flatMap (fun t =>
        List.insertionSort timeLE (turbineData (sortByTurbineTime rows) t))).Perm
        ((uniqueTurbines rows).flatMap (fun t => turbineData (sortByTurbineTime rows) t)) :=
      flatMap_perm_of_forall_perm _ _ _ (fun t _ => List.perm_insertionSort _ _)
    refine hstep1.trans ?_
    have hstep2 : ((uniqueTurbines rows).flatMap
        (fun t => turbineData (sortByTurbineTime rows) t)).Perm (sortByTurbineTime rows) := by
      apply flatMap_turbineData_perm _ _ (nodup_uniqueTurbines rows)
      intro r hr
      exact mem_uniqueTurbines ((List.perm_insertionSort _ _).mem_iff.mp hr)
    exact hstep2.trans (List.perm_insertionSort _ _)
  · intro e he
    rw [detect_missing_timestamps] at he
    simp only [List.mem_map] at he
    obtain ⟨t, ht, rfl⟩ := he
    show (missingTimestamps rows f t).length = 0
    rw [missingTimestamps_eq_nil rows f t (hgrid t ht)]
    rfl
  · intro p hp
    rw [detect_missing_timestamps] at hp
    simp only [List.mem_map] at hp
    obtain ⟨t, ht, rfl⟩ := hp
    exact missingTimestamps_eq_nil rows f t (hgrid t ht)

theorem gap_analyzer_roundtrip_witness :
    find_timestamp_gaps [⟨0, 480, 1⟩, ⟨0, 490, 2⟩, ⟨1, 480, 3⟩] 10 2 = [] :=
  (gap_analyzer_roundtrip [⟨0, 480, 1⟩, ⟨0, 490, 2⟩, ⟨1, 480, 3⟩] 10 2
    (by decide) (by decide)).2.2.1
